import Mathlib

set_option maxRecDepth 100000

/-! Shallow embedding of the missionaries-and-cannibals state-space search
engine of the `ai_algorithms` repository: the puzzle state model
(`src/cannibals/side_state.rs`, `src/cannibals/world_state.rs`), the four
search drivers (`src/canibals/solutions/bfs.rs`, `src/bin/dfs.rs`,
`src/bin/greedy_best_first_search.rs`, `src/bin/a_star.rs`) and the
duplicated combination table of `src/canibals/world/side_state.rs` and
`src/canibals/world.rs`.  Machine `u8` arithmetic is modelled on `Nat`
with explicit reduction modulo 256 (release-profile wrapping semantics). -/

/-- Wrapping 8-bit addition: `a + b` at type `u8`. -/
def add8 (a b : Nat) : Nat := (a + b) % 256

/-- Wrapping 8-bit subtraction: `a - b` at type `u8`. -/
def sub8 (a b : Nat) : Nat := (a + 256 - b % 256) % 256

/-- `enum BoatSide` from `src/cannibals/world_state.rs`. -/
inductive BoatSide
  | RightSide
  | LeftSide
  deriving DecidableEq, Repr

/-- `struct SideState` from `src/cannibals/side_state.rs`: the counts of the
two resource types on one bank of the river (`u8` fields, modelled as `Nat`
kept below 256 by every producer in the code). -/
structure SideState where
  cannibals : Nat
  missionaries : Nat
  deriving DecidableEq, Repr

/-- `SideState::cannibal_can_eat_missionary`:
`self.cannibals > self.missionaries && self.missionaries > 0`. -/
def SideState.cannibal_can_eat_missionary (s : SideState) : Bool :=
  decide (s.missionaries < s.cannibals) && decide (0 < s.missionaries)

/-- `SideState::get_all_send_combinations` from `src/cannibals/side_state.rs`
(the version the library and every search driver link against), translated
guard for guard in source order. -/
def SideState.get_all_send_combinations (s : SideState) : List (Nat × Nat) :=
  if 2 ≤ s.cannibals ∧ 2 ≤ s.missionaries then [(2, 0), (0, 2), (1, 1), (1, 0), (0, 1)]
  else if 2 ≤ s.cannibals ∧ s.missionaries = 1 then [(2, 0), (0, 1), (1, 1), (1, 0)]
  else if 2 ≤ s.cannibals ∧ s.missionaries = 0 then [(2, 0), (1, 0)]
  else if s.cannibals = 1 ∧ s.missionaries = 1 then [(1, 0), (0, 1), (1, 1)]
  else if s.cannibals = 1 ∧ s.missionaries = 0 then [(1, 0)]
  else if s.cannibals = 0 ∧ s.missionaries = 1 then [(0, 1)]
  else if s.cannibals = 0 ∧ 2 ≤ s.missionaries then [(0, 2), (0, 1)]
  else if s.cannibals = 1 ∧ 2 ≤ s.missionaries then [(0, 2), (0, 1), (1, 1), (1, 0)]
  else [(0, 0)]

/-- `SideState::get_all_send_combinations` as duplicated in
`src/canibals/world/side_state.rs` and `src/canibals/world.rs`.  It differs
from the library version in the `c == 1 && m >= 2` arm, which offers
`(2, 0)` although only one cannibal is available. -/
def SideState.get_all_send_combinations_dup (s : SideState) : List (Nat × Nat) :=
  if 2 ≤ s.cannibals ∧ 2 ≤ s.missionaries then [(2, 0), (0, 2), (1, 1), (1, 0), (0, 1)]
  else if 2 ≤ s.cannibals ∧ s.missionaries = 1 then [(2, 0), (0, 1), (1, 1), (1, 0)]
  else if 2 ≤ s.cannibals ∧ s.missionaries = 0 then [(2, 0), (1, 0)]
  else if s.cannibals = 1 ∧ s.missionaries = 1 then [(1, 0), (0, 1), (1, 1)]
  else if s.cannibals = 1 ∧ s.missionaries = 0 then [(1, 0)]
  else if s.cannibals = 0 ∧ s.missionaries = 1 then [(0, 1)]
  else if s.cannibals = 0 ∧ 2 ≤ s.missionaries then [(0, 2), (0, 1)]
  else if s.cannibals = 1 ∧ 2 ≤ s.missionaries then [(2, 0), (0, 1), (1, 1), (1, 0)]
  else [(0, 0)]

/-- `enum WorldStateError` from `src/cannibals/world_state.rs`. -/
inductive WorldStateError
  | ImpossibleNumberOfMissionaries (n : Nat)
  | ImpossibleNumberOfCannibals (n : Nat)
  | ParseFromStringError (msg : String)
  deriving DecidableEq, Repr

/-- `struct WorldState` from `src/cannibals/world_state.rs`: two bank
configurations, the boat location and the accumulated `backtrack` string
recording the provenance chain. -/
structure WorldState where
  left_state : SideState
  right_state : SideState
  boat_side : BoatSide
  backtrack : String
  deriving DecidableEq, Repr

instance : Inhabited WorldState := ⟨⟨⟨0, 0⟩, ⟨0, 0⟩, BoatSide.RightSide, ""⟩⟩

instance {ε α : Type} [DecidableEq ε] [DecidableEq α] : DecidableEq (Except ε α) := fun x y =>
  match x, y with
  | Except.ok a, Except.ok b =>
    if h : a = b then isTrue (by rw [h]) else isFalse (by simp [h])
  | Except.error a, Except.error b =>
    if h : a = b then isTrue (by rw [h]) else isFalse (by simp [h])
  | Except.ok _, Except.error _ => isFalse (by simp)
  | Except.error _, Except.ok _ => isFalse (by simp)

/-- `WorldState::new`: validates the totals (computed at `u8`, hence modulo
256) before producing a state; cannibal total checked first. -/
def WorldState.new (left_state right_state : SideState) (boat_side : BoatSide)
    (backtrack : String) : Except WorldStateError WorldState :=
  let total_cannibals := add8 left_state.cannibals right_state.cannibals
  let total_missionaries := add8 left_state.missionaries right_state.missionaries
  if total_cannibals ≠ 3 then
    Except.error (WorldStateError.ImpossibleNumberOfCannibals total_cannibals)
  else if total_missionaries ≠ 3 then
    Except.error (WorldStateError.ImpossibleNumberOfMissionaries total_missionaries)
  else
    Except.ok ⟨left_state, right_state, boat_side, backtrack⟩

/-- The move description built by `WorldState::get_child_states` via
`format!`. -/
def moveDescription (cann missi : Nat) (side : String) : String :=
  "send " ++ toString cann ++ " cannibals and " ++ toString missi ++
    " missionaries to the " ++ side ++ " side"

/-- `WorldState::get_child_states` from `src/cannibals/world_state.rs`. -/
def WorldState.get_child_states (w : WorldState) : List (Except WorldStateError WorldState) :=
  match w.boat_side with
  | BoatSide.LeftSide =>
    w.left_state.get_all_send_combinations.map (fun p =>
      let mov := moveDescription p.1 p.2 ("right")
      WorldState.new
        ⟨sub8 w.left_state.cannibals p.1, sub8 w.left_state.missionaries p.2⟩
        ⟨add8 w.right_state.cannibals p.1, add8 w.right_state.missionaries p.2⟩
        BoatSide.RightSide
        (w.backtrack ++ "|" ++ mov))
  | BoatSide.RightSide =>
    w.right_state.get_all_send_combinations.map (fun p =>
      let mov := moveDescription p.1 p.2 ("left")
      WorldState.new
        ⟨add8 w.left_state.cannibals p.1, add8 w.left_state.missionaries p.2⟩
        ⟨sub8 w.right_state.cannibals p.1, sub8 w.right_state.missionaries p.2⟩
        BoatSide.LeftSide
        (w.backtrack ++ "|" ++ mov))

/-- `WorldState::get_heuristic`: `3 - self.left_state.missionaries` at `u8`. -/
def WorldState.get_heuristic (w : WorldState) : Nat :=
  sub8 3 w.left_state.missionaries

/-- `WorldState::get_step_by_step`: returns the owned backtrack string. -/
def WorldState.get_step_by_step (w : WorldState) : String :=
  w.backtrack

/-- `str::split` on a one-character separator, as a pure function on the
character list: always returns one piece more than the number of separator
occurrences (so splitting the empty string yields one empty piece). -/
def splitOnChar (sep : Char) : List Char → List (List Char)
  | [] => [[]]
  | c :: cs =>
    let r := splitOnChar sep cs
    if c = sep then [] :: r
    else
      match r with
      | [] => [[c]]
      | t :: ts => (c :: t) :: ts

/-- `WorldState::get_step_by_step_vec`: split the backtrack string on `"|"`
and collect the pieces. -/
def WorldState.get_step_by_step_vec (w : WorldState) : List String :=
  (splitOnChar '|' w.get_step_by_step.data).map (fun l => String.mk l)

/-- `WorldState::is_solution`: `self.left_state.missionaries == 3`. -/
def WorldState.is_solution (w : WorldState) : Bool :=
  decide (w.left_state.missionaries = 3)

/-- `WorldState::is_game_over`: some bank lets a cannibal eat a missionary. -/
def WorldState.is_game_over (w : WorldState) : Bool :=
  w.left_state.cannibal_can_eat_missionary || w.right_state.cannibal_can_eat_missionary

/-- `str::trim`: drop whitespace from both ends (the inputs exercised here
are ASCII, where `Char.isWhitespace` agrees with Rust's trimming). -/
def trimStr (s : String) : String :=
  String.mk (((s.data.dropWhile Char.isWhitespace).reverse.dropWhile Char.isWhitespace).reverse)

/-- The numeric value of an ASCII decimal digit. -/
def digitVal (c : Char) : Option Nat :=
  if '0' ≤ c ∧ c ≤ '9' then some (c.toNat - Char.toNat '0') else none

/-- Accumulate decimal digits left to right. -/
def parseDigits : List Char → Nat → Option Nat
  | [], acc => some acc
  | c :: cs, acc =>
    match digitVal c with
    | some d => parseDigits cs (acc * 10 + d)
    | none => none

/-- `u8::from_str` (`"...".parse::<u8>()`): an optional leading `+`, then one
or more ASCII decimal digits, with the value required to fit in `u8`. -/
def parseU8 (s : String) : Option Nat :=
  let cs :=
    match s.data with
    | '+' :: rest => rest
    | l => l
  if cs.isEmpty then none
  else
    match parseDigits cs 0 with
    | some n => if n ≤ 255 then some n else none
    | none => none

/-- `impl TryFrom<&str> for BoatSide`. -/
def BoatSide.tryFrom (value : String) : Except WorldStateError BoatSide :=
  if trimStr value = "right" then Except.ok BoatSide.RightSide
  else if trimStr value = "left" then Except.ok BoatSide.LeftSide
  else Except.error (WorldStateError.ParseFromStringError ("Invalid Value For BoatSide"))

/-- `impl Into<String> for BoatSide`. -/
def BoatSide.toRustString : BoatSide → String
  | BoatSide.RightSide => "right"
  | BoatSide.LeftSide => "left"

/-- The error every failed number parse is converted to
(`impl From<ParseIntError> for WorldStateError`). -/
def parseNumError : WorldStateError :=
  WorldStateError.ParseFromStringError ("Error while trying to parse a number from string")

/-- `impl TryFrom<&str> for WorldState`: split on a single space, require at
least five tokens, trim and parse the four counts in order, then the boat
side, and validate through `WorldState::new` with backtrack `"root state"`. -/
def WorldState.tryFrom (value : String) : Except WorldStateError WorldState :=
  let v := (splitOnChar ' ' value.data).map (fun l => String.mk l)
  if v.length < 5 then
    Except.error (WorldStateError.ParseFromStringError ("Non sufficient number of args"))
  else
    match v with
    | t0 :: t1 :: t2 :: t3 :: t4 :: _ =>
      match parseU8 (trimStr t0) with
      | none => Except.error parseNumError
      | some l_c =>
        match parseU8 (trimStr t1) with
        | none => Except.error parseNumError
        | some l_m =>
          match parseU8 (trimStr t2) with
          | none => Except.error parseNumError
          | some r_c =>
            match parseU8 (trimStr t3) with
            | none => Except.error parseNumError
            | some r_m =>
              match BoatSide.tryFrom (trimStr t4) with
              | Except.error e => Except.error e
              | Except.ok b =>
                WorldState.new ⟨l_c, l_m⟩ ⟨r_c, r_m⟩ b ("root state")
    | _ => Except.error (WorldStateError.ParseFromStringError ("Non sufficient number of args"))

/-- `impl Into<String> for &WorldState`: the five-token canonical encoding. -/
def WorldState.encode (w : WorldState) : String :=
  toString w.left_state.cannibals ++ " " ++ toString w.left_state.missionaries ++ " " ++
    toString w.right_state.cannibals ++ " " ++ toString w.right_state.missionaries ++ " " ++
    w.boat_side.toRustString

/-- Number of moves reported by the drivers: `step_by_step_vec.len() - 1`. -/
def WorldState.moveCount (w : WorldState) : Nat :=
  w.get_step_by_step_vec.length - 1

/-! ### Search drivers

Each driver is translated from its Rust source with a fuel parameter in
place of the unbounded `loop`.  A driver answer of `none` means the fuel ran
out or an `expect` panicked; `some none` is the exhausted-frontier outcome;
`some (some w)` is a found solution.  Every driver also returns the list of
every state it ever pushed onto its frontier, in push order. -/

/-- `world_state_result.expect(...)` mapped over a child list: `none` models
the panic on an `Err` child. -/
def expectAll : List (Except WorldStateError WorldState) → Option (List WorldState)
  | [] => some []
  | Except.error _ :: _ => none
  | Except.ok w :: rest =>
    match expectAll rest with
    | some ws => some (w :: ws)
    | none => none

/-- The initial-state string shared by all four drivers. -/
def initialStateStr : String := "0 0 3 3 right"

/-- One driver step outcome: the frontier, visited keys and push log after
processing the children of one expanded state. -/
structure ExpandAcc where
  frontier : List WorldState
  visited : List String
  pushed : List WorldState

/-- The inner `for` loop of `run_bfs` (`src/canibals/solutions/bfs.rs`,
lines 30–43): skip a child whose canonical key is already queued, then skip
a child that is a failure state, otherwise push back and record the key. -/
def bfsExpand (children : List WorldState) (acc : ExpandAcc) : ExpandAcc :=
  children.foldl
    (fun acc child =>
      let rep := child.encode
      if acc.visited.contains rep then acc
      else if child.is_game_over then acc
      else ⟨acc.frontier ++ [child], acc.visited ++ [rep], acc.pushed ++ [child]⟩)
    acc

/-- The main `loop` of `run_bfs`: FIFO pop, solution test, failure test,
then expansion.  `loopPushed` records only states pushed inside this loop
(the seeding pushes are recorded by `bfsRun` itself). -/
def bfsLoop : Nat → List WorldState → List String → List WorldState →
    Option (Option WorldState) × List WorldState
  | 0, _, _, log => (none, log)
  | _ + 1, [], _, log => (some none, log)
  | fuel + 1, s :: rest, visited, log =>
    if s.is_solution then (some (some s), log)
    else if s.is_game_over then bfsLoop fuel rest visited log
    else
      match expectAll s.get_child_states with
      | none => (none, log)
      | some children =>
        let acc := bfsExpand children ⟨rest, visited, log⟩
        bfsLoop fuel acc.frontier acc.visited acc.pushed

/-- `run_bfs` from `src/canibals/solutions/bfs.rs`: seeds the FIFO queue
with the initial state's children (no visited marking, no failure check at
seeding), then runs the loop.  Returns the driver answer, the loop-pushed
states and the seeded states. -/
def bfsRun (fuel : Nat) : Option (Option WorldState) × List WorldState × List WorldState :=
  match WorldState.tryFrom initialStateStr with
  | Except.error _ => (none, [], [])
  | Except.ok initial_state =>
    match expectAll initial_state.get_child_states with
    | none => (none, [], [])
    | some seeds =>
      ((bfsLoop fuel seeds [] []).1, (bfsLoop fuel seeds [] []).2, seeds)

/-- The inner `for` loop shared by `src/bin/dfs.rs` (lines 34–45) and
`src/bin/greedy_best_first_search.rs`: skip a child whose key was already
queued, otherwise push FRONT and record the key — no failure check. -/
def dfsExpand (children : List WorldState) (acc : ExpandAcc) : ExpandAcc :=
  children.foldl
    (fun acc child =>
      let rep := child.encode
      if acc.visited.contains rep then acc
      else ⟨child :: acc.frontier, acc.visited ++ [rep], acc.pushed ++ [child]⟩)
    acc

/-- The main `loop` of `src/bin/dfs.rs` `main`: LIFO pop, solution test,
failure test at pop time only, then unfiltered expansion. -/
def dfsLoop : Nat → List WorldState → List String → List WorldState →
    Option (Option WorldState) × List WorldState
  | 0, _, _, log => (none, log)
  | _ + 1, [], _, log => (some none, log)
  | fuel + 1, s :: rest, visited, log =>
    if s.is_solution then (some (some s), log)
    else if s.is_game_over then dfsLoop fuel rest visited log
    else
      match expectAll s.get_child_states with
      | none => (none, log)
      | some children =>
        let acc := dfsExpand children ⟨rest, visited, log⟩
        dfsLoop fuel acc.frontier acc.visited acc.pushed

/-- `main` of `src/bin/dfs.rs`: marks the initial string visited, pushes the
initial children front one by one (unfiltered), then runs the loop.  The
returned push log includes the seeding pushes, in push order. -/
def dfsRun (fuel : Nat) : Option (Option WorldState) × List WorldState :=
  match WorldState.tryFrom initialStateStr with
  | Except.error _ => (none, [])
  | Except.ok initial_state =>
    match expectAll initial_state.get_child_states with
    | none => (none, [])
    | some seeds =>
      let acc := seeds.foldl
        (fun (acc : ExpandAcc) w =>
          ⟨w :: acc.frontier, acc.visited ++ [w.encode], acc.pushed ++ [w]⟩)
        ⟨[], [initialStateStr], []⟩
      dfsLoop fuel acc.frontier acc.visited acc.pushed

/-- Stable insertion of a state into a list sorted by descending heuristic:
placed before the first strictly smaller heuristic, after equal ones.  The
result is the unique stable descending order, matching Rust's stable
`sort_by(|a, b| b.get_heuristic().cmp(&a.get_heuristic()))`. -/
def insertDescByHeuristic (x : WorldState) : List WorldState → List WorldState
  | [] => [x]
  | y :: ys =>
    if y.get_heuristic < x.get_heuristic then x :: y :: ys
    else y :: insertDescByHeuristic x ys

/-- Stable sort by descending heuristic. -/
def sortDescByHeuristic (l : List WorldState) : List WorldState :=
  l.foldl (fun acc x => insertDescByHeuristic x acc) []

/-- The main `loop` of `src/bin/greedy_best_first_search.rs` `main`: like the
bin DFS loop, but the children are stably sorted by descending heuristic
before being pushed front one by one. -/
def greedyLoop : Nat → List WorldState → List String → List WorldState →
    Option (Option WorldState) × List WorldState
  | 0, _, _, log => (none, log)
  | _ + 1, [], _, log => (some none, log)
  | fuel + 1, s :: rest, visited, log =>
    if s.is_solution then (some (some s), log)
    else if s.is_game_over then greedyLoop fuel rest visited log
    else
      match expectAll s.get_child_states with
      | none => (none, log)
      | some children =>
        let acc := dfsExpand (sortDescByHeuristic children) ⟨rest, visited, log⟩
        greedyLoop fuel acc.frontier acc.visited acc.pushed

/-- `main` of `src/bin/greedy_best_first_search.rs`. -/
def greedyRun (fuel : Nat) : Option (Option WorldState) × List WorldState :=
  match WorldState.tryFrom initialStateStr with
  | Except.error _ => (none, [])
  | Except.ok initial_state =>
    match expectAll initial_state.get_child_states with
    | none => (none, [])
    | some seeds =>
      let acc := (sortDescByHeuristic seeds).foldl
        (fun (acc : ExpandAcc) w =>
          ⟨w :: acc.frontier, acc.visited ++ [w.encode], acc.pushed ++ [w]⟩)
        ⟨[], [initialStateStr], []⟩
      greedyLoop fuel acc.frontier acc.visited acc.pushed

/-! ### The A* frontier: Rust's `BinaryHeap<Reverse<WorldStateHeapWrapper>>`

The heap stores its elements in a vector; here the vector is a `List` with
total indexed read/write.  The element order is the `Reverse` of
`WorldStateHeapWrapper`'s comparison, which compares heuristic values alone
(`src/cannibals/world_state.rs`, the `PartialOrd` implementation at lines
295–319): `Reverse(a) <= Reverse(b)` exactly when
`b.get_heuristic() <= a.get_heuristic()`.  `siftUp` and `siftDownToBottom`
are ported statement by statement from `std::collections::BinaryHeap`'s
`sift_up` and `sift_down_to_bottom`, so pushes and pops reorder ties exactly
as the Rust driver does. -/

/-- Indexed read of the heap vector (total, with a junk default that no
reachable index ever hits). -/
def listGet (l : List WorldState) (i : Nat) : WorldState :=
  l.getD i default

/-- Indexed write of the heap vector. -/
def listSet (l : List WorldState) (i : Nat) (x : WorldState) : List WorldState :=
  l.set i x

/-- `<=` between heap elements `Reverse(WorldStateHeapWrapper(a))` and
`Reverse(WorldStateHeapWrapper(b))`. -/
def heapLe (a b : WorldState) : Bool :=
  decide (b.get_heuristic ≤ a.get_heuristic)

/-- The `while` loop of `BinaryHeap::sift_up`, carrying the held-out element:
move the hole to the parent while the element compares strictly greater,
then drop the element at the final hole position. -/
def siftUpLoop (fuel : Nat) (data : List WorldState) (start pos : Nat)
    (elt : WorldState) : List WorldState :=
  match fuel with
  | 0 => listSet data pos elt
  | fuel + 1 =>
    if start < pos then
      let parent := (pos - 1) / 2
      if heapLe elt (listGet data parent) then listSet data pos elt
      else siftUpLoop fuel (listSet data pos (listGet data parent)) start parent elt
    else listSet data pos elt

/-- `BinaryHeap::sift_up`. -/
def siftUp (data : List WorldState) (start pos : Nat) : List WorldState :=
  siftUpLoop (pos + 1) data start pos (listGet data pos)

/-- `BinaryHeap::push`: append, then sift the new leaf up. -/
def heapPush (data : List WorldState) (x : WorldState) : List WorldState :=
  siftUp (data ++ [x]) 0 data.length

/-- The `while` loop of `BinaryHeap::sift_down_to_bottom`: walk the hole to
the bottom, always descending to the greater child. -/
def siftDownLoop (fuel : Nat) (data : List WorldState) (pos child endd : Nat) :
    List WorldState × Nat :=
  match fuel with
  | 0 => (data, pos)
  | fuel + 1 =>
    if child < endd - 1 then
      let child := if heapLe (listGet data child) (listGet data (child + 1)) then child + 1 else child
      let data := listSet data pos (listGet data child)
      siftDownLoop fuel data child (2 * child + 1) endd
    else if child = endd - 1 then
      (listSet data pos (listGet data child), child)
    else (data, pos)

/-- `BinaryHeap::sift_down_to_bottom`: walk the hole to the bottom, drop the
element there, then sift it back up toward the original position. -/
def siftDownToBottom (data : List WorldState) (pos : Nat) : List WorldState :=
  let endd := data.length
  let elt := listGet data pos
  let pr := siftDownLoop (endd + 2) data pos (2 * pos + 1) endd
  siftUp (listSet pr.1 pr.2 elt) pos pr.2

/-- `BinaryHeap::pop`: remove the last element; if the heap is still
nonempty, swap it into the root and sift down.  Always returns the previous
root. -/
def heapPop (data : List WorldState) : Option (WorldState × List WorldState) :=
  match data with
  | [] => none
  | _ :: _ =>
    let item := listGet data 0
    let last := listGet data (data.length - 1)
    let rest := data.dropLast
    if rest.isEmpty then some (item, rest)
    else some (item, siftDownToBottom (listSet rest 0 last) 0)

/-- Accumulator of the A* expansion: heap contents, visited keys, push log. -/
structure AStarAcc where
  heap : List WorldState
  visited : List String
  pushed : List WorldState

/-- The inner `for` loop of `src/bin/a_star.rs` `main` (lines 50–62): skip a
child whose key was already queued, otherwise push onto the heap and record
the key — no failure check before scheduling. -/
def aStarExpand (children : List WorldState) (acc : AStarAcc) : AStarAcc :=
  children.foldl
    (fun acc child =>
      let rep := child.encode
      if acc.visited.contains rep then acc
      else ⟨heapPush acc.heap child, acc.visited ++ [rep], acc.pushed ++ [child]⟩)
    acc

/-- The main `loop` of `src/bin/a_star.rs` `main` (lines 36–67): pop the
heap, test solution, test failure, expand.  `popLog` records each popped
state together with the heap contents pending at that pop. -/
def aStarLoop : Nat → List WorldState → List String → List WorldState →
    List (WorldState × List WorldState) →
    Option (Option WorldState) × List WorldState × List (WorldState × List WorldState)
  | 0, _, _, log, plog => (none, log, plog)
  | fuel + 1, heap, visited, log, plog =>
    match heapPop heap with
    | none => (some none, log, plog)
    | some (s, heap2) =>
      let plog := plog ++ [(s, heap)]
      if s.is_solution then (some (some s), log, plog)
      else if s.is_game_over then aStarLoop fuel heap2 visited log plog
      else
        match expectAll s.get_child_states with
        | none => (none, log, plog)
        | some children =>
          let acc := aStarExpand children ⟨heap2, visited, log⟩
          aStarLoop fuel acc.heap acc.visited acc.pushed plog

/-- `main` of `src/bin/a_star.rs`: marks the initial string visited, pushes
the initial children onto the heap in generation order, then runs the loop. -/
def aStarRun (fuel : Nat) :
    Option (Option WorldState) × List WorldState × List (WorldState × List WorldState) :=
  match WorldState.tryFrom initialStateStr with
  | Except.error _ => (none, [], [])
  | Except.ok initial_state =>
    match expectAll initial_state.get_child_states with
    | none => (none, [], [])
    | some seeds =>
      let acc := seeds.foldl
        (fun (acc : AStarAcc) w =>
          ⟨heapPush acc.heap w, acc.visited ++ [w.encode], acc.pushed ++ [w]⟩)
        ⟨[], [initialStateStr], []⟩
      aStarLoop fuel acc.heap acc.visited acc.pushed []

/-! ### Specification-level definitions used to state the claims -/

/-- The move count a driver reports, when it finishes with a solution. -/
def driverMoves : Option (Option WorldState) → Option Nat
  | some (some w) => some w.moveCount
  | _ => none

/-- The side opposite a given boat side. -/
def oppositeSide : BoatSide → BoatSide
  | BoatSide.RightSide => BoatSide.LeftSide
  | BoatSide.LeftSide => BoatSide.RightSide

/-- The combination list `get_child_states` maps over: the mover side's
send combinations. -/
def sendCombos (w : WorldState) : List (Nat × Nat) :=
  match w.boat_side with
  | BoatSide.LeftSide => w.left_state.get_all_send_combinations
  | BoatSide.RightSide => w.right_state.get_all_send_combinations

/-- The body of the closure `get_child_states` maps over `sendCombos`: the
child produced by carrying the combination `p` across. -/
def childFrom (w : WorldState) (p : Nat × Nat) : Except WorldStateError WorldState :=
  match w.boat_side with
  | BoatSide.LeftSide =>
    WorldState.new
      ⟨sub8 w.left_state.cannibals p.1, sub8 w.left_state.missionaries p.2⟩
      ⟨add8 w.right_state.cannibals p.1, add8 w.right_state.missionaries p.2⟩
      BoatSide.RightSide
      (w.backtrack ++ "|" ++ moveDescription p.1 p.2 ("right"))
  | BoatSide.RightSide =>
    WorldState.new
      ⟨add8 w.left_state.cannibals p.1, add8 w.left_state.missionaries p.2⟩
      ⟨sub8 w.right_state.cannibals p.1, sub8 w.right_state.missionaries p.2⟩
      BoatSide.LeftSide
      (w.backtrack ++ "|" ++ moveDescription p.1 p.2 ("left"))

/-- The move description the source formats for a step taken from a state
whose boat is on the given side with combination `p`. -/
def stepDescriptionOf (bs : BoatSide) (p : Nat × Nat) : String :=
  match bs with
  | BoatSide.LeftSide => moveDescription p.1 p.2 ("right")
  | BoatSide.RightSide => moveDescription p.1 p.2 ("left")

/-- `ReachesVia root w ms`: `w` is obtained from `root` by a chain of
`get_child_states` steps whose move descriptions, in root-to-goal order,
are `ms`.  Each step records the combination `p` actually offered by the
mover side's table, the child being the corresponding `Ok` element of
`get_child_states` (see `get_child_states_eq`), and its description the
string the source formats for that step. -/
inductive ReachesVia (root : WorldState) : WorldState → List String → Prop
  | refl : ReachesVia root root []
  | step {w c : WorldState} {ms : List String} {p : Nat × Nat} :
      ReachesVia root w ms → p ∈ sendCombos w → childFrom w p = Except.ok c →
      ReachesVia root c (ms ++ [stepDescriptionOf w.boat_side p])

/-- The binary-heap ordering invariant the A* frontier maintains: every
non-root position's heuristic is at least its parent's (the layout of a
min-heap on heuristic values, i.e. a max-heap for the reversed wrapper
order). -/
def IsMinHeapByHeuristic (data : List WorldState) : Prop :=
  ∀ i : Nat, 0 < i → i < data.length →
    (listGet data ((i - 1) / 2)).get_heuristic ≤ (listGet data i).get_heuristic

/-- A* path cost `f = h + g`: heuristic plus exploration depth. -/
def heurPlusDepth (w : WorldState) : Nat :=
  w.get_heuristic + w.moveCount

/-- A five-token initial-state string built from canonical decimal numerals
and a side token, joined by single spaces. -/
def fiveTokens (n1 n2 n3 n4 : Nat) (side : String) : String :=
  toString n1 ++ " " ++ toString n2 ++ " " ++ toString n3 ++ " " ++ toString n4 ++ " " ++ side

/-- Parse a state string, defaulting on failure (used only to name concrete
states in witnesses). -/
def mkW (s : String) : WorldState :=
  match WorldState.tryFrom s with
  | Except.ok w => w
  | Except.error _ => default

/-- The first child of the canonical initial state: two cannibals cross. -/
def childCann2 : WorldState :=
  ⟨⟨2, 0⟩, ⟨1, 3⟩, BoatSide.LeftSide,
    "root state|send 2 cannibals and 0 missionaries to the left side"⟩

/-- The six pairs that `get_all_send_combinations` can ever emit (all its
arms return literal sublists of this list). -/
def combosUniverse : List (Nat × Nat) :=
  [(2, 0), (0, 2), (1, 1), (1, 0), (0, 1), (0, 0)]

/-- Executable check of the heap layout invariant `IsMinHeapByHeuristic`. -/
def isMinHeapB (data : List WorldState) : Bool :=
  (List.range data.length).all (fun i =>
    decide (i = 0) ||
      decide ((listGet data ((i - 1) / 2)).get_heuristic ≤ (listGet data i).get_heuristic))

/-- Pop every element off a heap, collecting the canonical encodings in pop
order. -/
def popAllEncodes : Nat → List WorldState → List String
  | 0, _ => []
  | fuel + 1, h =>
    match heapPop h with
    | none => []
    | some (w, h2) => w.encode :: popAllEncodes fuel h2

/-- The six states of the repository's own heap-order unit test
(`test_world_state_heap_wrapper_maintains_expected_order`), pushed in the
test's push order. -/
def referenceTestHeap : List WorldState :=
  [mkW ("0 0 3 3 right"), mkW ("1 1 2 2 right"), mkW ("2 3 1 0 right"),
    mkW ("2 2 1 1 right"), mkW ("0 3 3 0 right"), mkW ("0 3 3 0 right")].foldl heapPush []

/-! ### The `src/canibals/world/world_state.rs` variant

This duplicated implementation stores provenance as
`backtrack: (Option<&WorldState>, String)` — a parent reference plus the
move description — instead of an accumulated string; its constructor tuple
is split into the `parent` and `reason` fields here.  Its
`get_step_by_step` walks the parent chain collecting the reasons
goal-to-root and ends with `format!("{}", self)` at the root, and its
`get_step_by_step_vec` splits on `"|"` and REVERSES.  Its successor
generation uses the `src/canibals/world/side_state.rs` combination table. -/

inductive WorldStateP where
  | mk (left_state right_state : SideState) (boat_side : BoatSide)
      (parent : Option WorldStateP) (reason : String)

/-- Field accessor for the variant state. -/
def WorldStateP.left_state : WorldStateP → SideState
  | WorldStateP.mk ls _ _ _ _ => ls

/-- Field accessor for the variant state. -/
def WorldStateP.right_state : WorldStateP → SideState
  | WorldStateP.mk _ rs _ _ _ => rs

/-- Field accessor for the variant state. -/
def WorldStateP.boat_side : WorldStateP → BoatSide
  | WorldStateP.mk _ _ bs _ _ => bs

/-- The JSON text `serde_json::to_string` produces for a `SideState`
(derived `Serialize`, compact output, declaration field order). -/
def sideStateJson (s : SideState) : String :=
  "\x7b\"cannibals\":" ++ toString s.cannibals ++ ",\"missionaries\":" ++
    toString s.missionaries ++ "\x7d"

/-- The serde name of a `BoatSide` variant. -/
def boatSideVariantName : BoatSide → String
  | BoatSide.RightSide => "RightSide"
  | BoatSide.LeftSide => "LeftSide"

/-- The JSON text `format!("{}", self)` (the `Display` implementation,
`serde_json::to_string`) produces for a PARENTLESS variant state — the only
shape `get_step_by_step` ever displays.  The reason string is emitted
verbatim, which is exact for reasons needing no JSON escaping, such as
`"root state"`. -/
def rootDisplayJson (ls rs : SideState) (bs : BoatSide) (reason : String) : String :=
  "\x7b\"left_state\":" ++ sideStateJson ls ++ ",\"right_state\":" ++ sideStateJson rs ++
    ",\"boat_side\":\"" ++ boatSideVariantName bs ++ "\",\"backtrack\":[null,\"" ++
    reason ++ "\"]\x7d"

/-- `WorldState::new` of the variant: the same `u8` total checks, carrying
the `(parent, reason)` backtrack tuple. -/
def WorldStateP.new (left_state right_state : SideState) (boat_side : BoatSide)
    (backtrack : Option WorldStateP × String) : Except WorldStateError WorldStateP :=
  let total_cannibals := add8 left_state.cannibals right_state.cannibals
  let total_missionaries := add8 left_state.missionaries right_state.missionaries
  if total_cannibals ≠ 3 then
    Except.error (WorldStateError.ImpossibleNumberOfCannibals total_cannibals)
  else if total_missionaries ≠ 3 then
    Except.error (WorldStateError.ImpossibleNumberOfMissionaries total_missionaries)
  else
    Except.ok (WorldStateP.mk left_state right_state boat_side backtrack.1 backtrack.2)

/-- `WorldState::get_step_by_step` of the variant: reason, a `"|"`, then
the parent's reconstruction, recursively; the root displays itself. -/
def WorldStateP.get_step_by_step : WorldStateP → String
  | WorldStateP.mk ls rs bs none reason => rootDisplayJson ls rs bs reason
  | WorldStateP.mk _ _ _ (some parent) reason =>
    reason ++ "|" ++ WorldStateP.get_step_by_step parent

/-- `WorldState::get_step_by_step_vec` of the variant: split on `"|"`,
reverse so the sequence reads root-to-goal, then collect. -/
def WorldStateP.get_step_by_step_vec (w : WorldStateP) : List String :=
  ((splitOnChar '|' w.get_step_by_step.data).reverse).map (fun l => String.mk l)

/-- The mover side's combinations in the variant (the duplicated table). -/
def sendCombosP (w : WorldStateP) : List (Nat × Nat) :=
  match w.boat_side with
  | BoatSide.LeftSide => w.left_state.get_all_send_combinations_dup
  | BoatSide.RightSide => w.right_state.get_all_send_combinations_dup

/-- The closure body of the variant's `get_child_states`: the child keeps a
parent reference to `w` and the formatted move as its reason. -/
def childFromP (w : WorldStateP) (p : Nat × Nat) : Except WorldStateError WorldStateP :=
  match w.boat_side with
  | BoatSide.LeftSide =>
    WorldStateP.new
      ⟨sub8 w.left_state.cannibals p.1, sub8 w.left_state.missionaries p.2⟩
      ⟨add8 w.right_state.cannibals p.1, add8 w.right_state.missionaries p.2⟩
      BoatSide.RightSide
      (some w, moveDescription p.1 p.2 ("right"))
  | BoatSide.RightSide =>
    WorldStateP.new
      ⟨add8 w.left_state.cannibals p.1, add8 w.left_state.missionaries p.2⟩
      ⟨sub8 w.right_state.cannibals p.1, sub8 w.right_state.missionaries p.2⟩
      BoatSide.LeftSide
      (some w, moveDescription p.1 p.2 ("left"))

/-- `WorldState::get_child_states` of the variant: one candidate per
combination of the mover side's table. -/
def WorldStateP.get_child_states (w : WorldStateP) : List (Except WorldStateError WorldStateP) :=
  (sendCombosP w).map (childFromP w)

/-- `impl TryFrom<&str>` of the variant: the same parsing, with backtrack
`(None, "root state")`. -/
def WorldStateP.tryFrom (value : String) : Except WorldStateError WorldStateP :=
  let v := (splitOnChar ' ' value.data).map (fun l => String.mk l)
  if v.length < 5 then
    Except.error (WorldStateError.ParseFromStringError ("Non sufficient number of args"))
  else
    match v with
    | t0 :: t1 :: t2 :: t3 :: t4 :: _ =>
      match parseU8 (trimStr t0) with
      | none => Except.error parseNumError
      | some l_c =>
        match parseU8 (trimStr t1) with
        | none => Except.error parseNumError
        | some l_m =>
          match parseU8 (trimStr t2) with
          | none => Except.error parseNumError
          | some r_c =>
            match parseU8 (trimStr t3) with
            | none => Except.error parseNumError
            | some r_m =>
              match BoatSide.tryFrom (trimStr t4) with
              | Except.error e => Except.error e
              | Except.ok b =>
                WorldStateP.new ⟨l_c, l_m⟩ ⟨r_c, r_m⟩ b (none, "root state")
    | _ => Except.error (WorldStateError.ParseFromStringError ("Non sufficient number of args"))

/-- `ReachesViaP root w ms`: the variant-state analogue of `ReachesVia`:
`w` is reached from `root` by a chain of the variant's `get_child_states`
steps whose move descriptions, root-to-goal, are `ms`. -/
inductive ReachesViaP (root : WorldStateP) : WorldStateP → List String → Prop
  | refl : ReachesViaP root root []
  | step {w c : WorldStateP} {ms : List String} {p : Nat × Nat} :
      ReachesViaP root w ms → p ∈ sendCombosP w → childFromP w p = Except.ok c →
      ReachesViaP root c (ms ++ [stepDescriptionOf w.boat_side p])

/-- The variant root parsed from the canonical initial-state string. -/
def rootP : WorldStateP :=
  WorldStateP.mk ⟨0, 0⟩ ⟨3, 3⟩ BoatSide.RightSide none ("root state")

/-- The variant child of `rootP` carrying two cannibals across. -/
def childP1 : WorldStateP :=
  WorldStateP.mk ⟨2, 0⟩ ⟨1, 3⟩ BoatSide.LeftSide (some rootP)
    ("send 2 cannibals and 0 missionaries to the left side")

/-! ### Helper lemmas -/

theorem new_ok_iff (l r : SideState) (b : BoatSide) (bt : String) (w : WorldState) :
    WorldState.new l r b bt = Except.ok w ↔
      add8 l.cannibals r.cannibals = 3 ∧ add8 l.missionaries r.missionaries = 3 ∧
        w = ⟨l, r, b, bt⟩ := by
  unfold WorldState.new
  by_cases h1 : add8 l.cannibals r.cannibals = 3 <;>
    by_cases h2 : add8 l.missionaries r.missionaries = 3 <;>
      simp [h1, h2, eq_comm]

theorem mem_combosUniverse {s : SideState} {p : Nat × Nat}
    (h : p ∈ s.get_all_send_combinations) : p ∈ combosUniverse := by
  unfold SideState.get_all_send_combinations at h
  split_ifs at h <;> simp_all [combosUniverse] <;> tauto

theorem splitOnChar_ne_nil (sep : Char) (l : List Char) : splitOnChar sep l ≠ [] := by
  induction l with
  | nil => simp [splitOnChar]
  | cons c cs ih =>
    unfold splitOnChar
    by_cases h : c = sep
    · simp [h]
    · simp only [h, if_false]
      cases hr : splitOnChar sep cs with
      | nil => exact absurd hr ih
      | cons t ts => simp

theorem splitOnChar_no_sep {sep : Char} {l : List Char} (h : sep ∉ l) :
    splitOnChar sep l = [l] := by
  induction l with
  | nil => rfl
  | cons c cs ih =>
    have hc : ¬(c = sep) := fun hc => h (hc ▸ List.mem_cons_self c cs)
    have hcs : sep ∉ cs := fun hm => h (List.mem_cons_of_mem c hm)
    unfold splitOnChar
    simp [hc, ih hcs]

theorem splitOnChar_append_no_sep_right {sep : Char} (a : List Char) {b : List Char}
    (hb : sep ∉ b) :
    splitOnChar sep (a ++ sep :: b) = splitOnChar sep a ++ [b] := by
  induction a with
  | nil => simp [splitOnChar, splitOnChar_no_sep hb]
  | cons c a' ih =>
    by_cases hc : c = sep
    · simp [splitOnChar, hc, ih]
    · simp only [List.cons_append]
      unfold splitOnChar
      simp only [hc, if_false]
      rw [ih]
      cases hr : splitOnChar sep a' with
      | nil => exact absurd hr (splitOnChar_ne_nil sep a')
      | cons t ts => simp

theorem splitOnChar_cons_eq (sep : Char) (cs : List Char) :
    splitOnChar sep (sep :: cs) = [] :: splitOnChar sep cs := by
  simp [splitOnChar]

theorem splitOnChar_cons_ne {sep c : Char} (cs : List Char) (h : ¬(c = sep)) :
    splitOnChar sep (c :: cs) =
      match splitOnChar sep cs with
      | [] => [[c]]
      | t :: ts => (c :: t) :: ts := by
  simp [splitOnChar, h]

theorem splitOnChar_append_no_sep_left {sep : Char} {a : List Char} (b : List Char)
    (ha : sep ∉ a) :
    splitOnChar sep (a ++ sep :: b) = a :: splitOnChar sep b := by
  induction a with
  | nil => simp [splitOnChar]
  | cons c a' ih =>
    have hc : ¬(c = sep) := fun hc => ha (hc ▸ List.mem_cons_self c a')
    have ha' : sep ∉ a' := fun hm => ha (List.mem_cons_of_mem c hm)
    simp only [List.cons_append]
    rw [splitOnChar_cons_ne _ hc, ih ha']

theorem string_mk_data (s : String) : String.mk s.data = s := rfl

theorem string_data_append (s t : String) : (s ++ t).data = s.data ++ t.data :=
  String.data_append s t

theorem child_ok_elim {w c : WorldState} (h : Except.ok c ∈ w.get_child_states) :
    ∃ p : Nat × Nat, p ∈ combosUniverse ∧ ∃ dir : String,
      (dir = "right" ∨ dir = "left") ∧
      add8 c.left_state.cannibals c.right_state.cannibals = 3 ∧
      add8 c.left_state.missionaries c.right_state.missionaries = 3 ∧
      c.boat_side = oppositeSide w.boat_side ∧
      c.backtrack = w.backtrack ++ "|" ++ moveDescription p.1 p.2 dir := by
  unfold WorldState.get_child_states at h
  cases hb : w.boat_side <;> rw [hb] at h <;>
    simp only [List.mem_map] at h <;>
      obtain ⟨p, hp, hnew⟩ := h <;>
        rw [new_ok_iff] at hnew <;>
          obtain ⟨h1, h2, rfl⟩ := hnew
  · exact ⟨p, mem_combosUniverse hp, "left", Or.inr rfl, h1, h2, rfl, rfl⟩
  · exact ⟨p, mem_combosUniverse hp, "right", Or.inl rfl, h1, h2, rfl, rfl⟩

theorem moveDescription_no_pipe :
    ∀ p ∈ combosUniverse, ∀ d ∈ ([("right" : String), "left"]),
      '|' ∉ (moveDescription p.1 p.2 d).data := by decide

theorem step_vec_child {w c : WorldState} (h : Except.ok c ∈ w.get_child_states) :
    ∃ m : String, c.get_step_by_step_vec = w.get_step_by_step_vec ++ [m] := by
  obtain ⟨p, hp, dir, hdir, _, _, _, hbt⟩ := child_ok_elim h
  have hnp : '|' ∉ (moveDescription p.1 p.2 dir).data := by
    refine moveDescription_no_pipe p hp dir ?_
    rcases hdir with h1 | h1 <;> simp [h1]
  refine ⟨String.mk (moveDescription p.1 p.2 dir).data, ?_⟩
  unfold WorldState.get_step_by_step_vec WorldState.get_step_by_step
  rw [hbt, string_data_append, string_data_append]
  have : (("|" : String)).data = ['|'] := rfl
  rw [this, List.append_assoc]
  simp only [List.singleton_append]
  rw [splitOnChar_append_no_sep_right _ hnp, List.map_append]
  rfl

theorem tryFrom_ok_elim {s : String} {w : WorldState}
    (h : WorldState.tryFrom s = Except.ok w) :
    w.backtrack = "root state" ∧
      (w.left_state.cannibals + w.right_state.cannibals) % 256 = 3 ∧
      (w.left_state.missionaries + w.right_state.missionaries) % 256 = 3 := by
  simp only [WorldState.tryFrom] at h
  repeat' split at h
  all_goals try exact Except.noConfusion h
  obtain ⟨h1, h2, rfl⟩ := (new_ok_iff _ _ _ _ _).mp h
  exact ⟨rfl, h1, h2⟩

theorem mem_listGet {y : WorldState} {data : List WorldState} (h : y ∈ data) :
    ∃ i, i < data.length ∧ listGet data i = y := by
  induction data with
  | nil => simp at h
  | cons d ds ih =>
    rcases List.mem_cons.mp h with h1 | h1
    · exact ⟨0, by simp, h1.symm⟩
    · obtain ⟨i, hi, hg⟩ := ih h1
      exact ⟨i + 1, by simpa using hi, hg⟩

theorem heap_root_le {data : List WorldState} (hh : IsMinHeapByHeuristic data) :
    ∀ i : Nat, i < data.length →
      (listGet data 0).get_heuristic ≤ (listGet data i).get_heuristic := by
  intro i
  induction i using Nat.strong_induction_on with
  | _ i ih =>
    intro hi
    rcases Nat.eq_zero_or_pos i with h0 | h0
    · subst h0; exact le_refl _
    · have hp := hh i h0 hi
      have hlt : (i - 1) / 2 < i := by
        have h1 : (i - 1) / 2 ≤ i - 1 := Nat.div_le_self _ _
        omega
      exact le_trans (ih _ hlt (lt_trans hlt hi)) hp

theorem heapPop_fst {data : List WorldState} {x : WorldState} {rest : List WorldState}
    (h : heapPop data = some (x, rest)) : x = listGet data 0 := by
  cases data with
  | nil => simp [heapPop] at h
  | cons d ds =>
    simp only [heapPop] at h
    split at h <;> simp only [Option.some.injEq, Prod.mk.injEq] at h <;> exact h.1.symm

theorem bfsExpand_pushed {children : List WorldState} {acc : ExpandAcc} :
    ∀ w ∈ (bfsExpand children acc).pushed, w ∈ acc.pushed ∨ w.is_game_over = false := by
  induction children generalizing acc with
  | nil => exact fun w hw => Or.inl hw
  | cons c cs ih =>
    intro w hw
    unfold bfsExpand at hw
    rw [List.foldl_cons] at hw
    by_cases hv : acc.visited.contains c.encode
    · simp only [hv, if_true] at hw
      exact ih w hw
    · by_cases hg : c.is_game_over
      · simp only [hv, hg, if_false, if_true] at hw
        exact ih w hw
      · simp only [hv, hg, if_false] at hw
        rcases ih w hw with h1 | h1
        · rcases List.mem_append.mp h1 with h2 | h2
          · exact Or.inl h2
          · refine Or.inr ?_
            rw [List.mem_singleton.mp h2]
            exact Bool.not_eq_true _ ▸ hg
        · exact Or.inr h1

theorem bfsLoop_pushed :
    ∀ (fuel : Nat) (q : List WorldState) (v : List String) (log0 : List WorldState),
      ∀ w ∈ (bfsLoop fuel q v log0).2, w ∈ log0 ∨ w.is_game_over = false := by
  intro fuel
  induction fuel with
  | zero => exact fun q v log0 w hw => Or.inl hw
  | succ n ih =>
    intro q v log0 w hw
    match q with
    | [] => exact Or.inl hw
    | s :: rest =>
      unfold bfsLoop at hw
      by_cases hs : s.is_solution
      · simp only [hs, if_true] at hw
        exact Or.inl hw
      · by_cases hg : s.is_game_over
        · simp only [hs, hg, if_false, if_true] at hw
          exact ih rest v log0 w hw
        · simp only [hs, hg, if_false] at hw
          cases hc : expectAll s.get_child_states with
          | none => rw [hc] at hw; exact Or.inl hw
          | some children =>
            rw [hc] at hw
            rcases ih _ _ _ w hw with h1 | h1
            · exact bfsExpand_pushed w h1
            · exact Or.inr h1

theorem u8_repr_facts :
    ∀ n : Fin 256, parseU8 (toString n.val) = some n.val ∧
      trimStr (toString n.val) = toString n.val ∧ ' ' ∉ (toString n.val).data := by decide

/-! ### Claim C4 -/

/-- C4 (counterexample): the library table answers `[(0, 0)]` for the empty
side configuration, violating the at-least-one-unit bound, and the
duplicated `canibals` table offers `(2, 0)` with a single cannibal
available, violating the availability bound. -/
theorem c4_counterexample_send_combinations :
    (SideState.mk 0 0).get_all_send_combinations = [(0, 0)] ∧ ¬(1 ≤ 0 + 0) ∧
      (2, 0) ∈ (SideState.mk 1 2).get_all_send_combinations_dup ∧ ¬((2 : Nat) ≤ 1) := by
  decide

/-- C4 (amended): for every nonempty side configuration with at most three
of each resource, every pair the library table returns carries at least one
unit, at most two, and never exceeds availability. -/
theorem c4_amended_send_combinations_bounds (c m : Nat) (hc : c ≤ 3) (hm : m ≤ 3)
    (hpos : 1 ≤ c + m) :
    ∀ p ∈ (SideState.mk c m).get_all_send_combinations,
      1 ≤ p.1 + p.2 ∧ p.1 + p.2 ≤ 2 ∧ p.1 ≤ c ∧ p.2 ≤ m := by
  interval_cases c <;> interval_cases m <;>
    first
      | exact absurd hpos (by decide)
      | decide

/-- C4 witness: the amended bound at the full side and the two-cannibal
move. -/
theorem c4_witness_full_side :
    1 ≤ 2 + 0 ∧ 2 + 0 ≤ 2 ∧ 2 ≤ 3 ∧ 0 ≤ 3 :=
  c4_amended_send_combinations_bounds 3 3 (by decide) (by decide) (by decide)
    (2, 0) (by decide)

/-! ### Claim C9 -/

/-- C9: every `Ok` child produced by `get_child_states` carries the boat on
the side opposite its parent's. -/
theorem c9_children_flip_boat_side (w c : WorldState)
    (h : Except.ok c ∈ w.get_child_states) :
    c.boat_side = oppositeSide w.boat_side := by
  obtain ⟨_, _, _, _, _, _, hflip, _⟩ := child_ok_elim h
  exact hflip

/-- C9 witness: the first child of the canonical initial state has the boat
on the left. -/
theorem c9_witness_first_child :
    childCann2.boat_side = oppositeSide (mkW initialStateStr).boat_side :=
  c9_children_flip_boat_side (mkW initialStateStr) childCann2 (by decide)

/-! ### Claim C10 -/

/-- C10: `WorldState::new` totals are computed at `u8`, so the check accepts
exactly the configurations whose per-type sums are 3 modulo 256; under the
no-overflow hypothesis an `Ok` result forces the true totals to be 3. -/
theorem c10_u8_total_check (l r : SideState) (b : BoatSide) (bt : String) :
    ((WorldState.new l r b bt).isOk = true ↔
      (l.cannibals + r.cannibals) % 256 = 3 ∧
        (l.missionaries + r.missionaries) % 256 = 3) ∧
    (l.cannibals + r.cannibals ≤ 255 → l.missionaries + r.missionaries ≤ 255 →
      (WorldState.new l r b bt).isOk = true →
      l.cannibals + r.cannibals = 3 ∧ l.missionaries + r.missionaries = 3) := by
  have hiff : (WorldState.new l r b bt).isOk = true ↔
      (l.cannibals + r.cannibals) % 256 = 3 ∧
        (l.missionaries + r.missionaries) % 256 = 3 := by
    unfold WorldState.new add8
    by_cases h1 : (l.cannibals + r.cannibals) % 256 = 3 <;>
      by_cases h2 : (l.missionaries + r.missionaries) % 256 = 3 <;>
        simp [h1, h2, Except.isOk, Except.toBool]
  refine ⟨hiff, fun hc hm hok => ?_⟩
  obtain ⟨h1, h2⟩ := hiff.mp hok
  omega

/-- C10 witness: `255 + 4 ≡ 3 (mod 256)` passes the cannibal check even
though the true total is 259, and an in-range `Ok` does force totals 3. -/
theorem c10_witness_overflow_accept :
    (WorldState.new ⟨255, 0⟩ ⟨4, 3⟩ BoatSide.RightSide ("w")).isOk = true ∧
      (0 + 3 = 3 ∧ 3 + 0 = 3) :=
  ⟨(c10_u8_total_check ⟨255, 0⟩ ⟨4, 3⟩ BoatSide.RightSide ("w")).1.mpr (by decide),
    (c10_u8_total_check ⟨0, 3⟩ ⟨3, 0⟩ BoatSide.LeftSide ("w")).2 (by decide) (by decide)
      (by decide)⟩

/-! ### Claim C5 -/

/-- C5 (counterexample): parsing `"255 0 4 3 right"` yields a state (the
`u8` totals wrap), whose true cannibal total is 259, not 3. -/
theorem c5_counterexample_total_invariant :
    (WorldState.tryFrom ("255 0 4 3 right")).toOption.map
        (fun w => w.left_state.cannibals + w.right_state.cannibals) = some 259 ∧
      (259 : Nat) ≠ 3 := by decide

/-- C5 (amended): every state obtained from `WorldState::new`, from
`TryFrom<&str>`, or as an `Ok` child satisfies the totals invariant modulo
256; the true totals equal 3 whenever the constructor's per-type input sums
fit in `u8`. -/
theorem c5_amended_total_invariant_mod256 :
    (∀ (l r : SideState) (b : BoatSide) (bt : String) (w : WorldState),
        WorldState.new l r b bt = Except.ok w →
        (w.left_state.cannibals + w.right_state.cannibals) % 256 = 3 ∧
          (w.left_state.missionaries + w.right_state.missionaries) % 256 = 3) ∧
    (∀ (s : String) (w : WorldState), WorldState.tryFrom s = Except.ok w →
        (w.left_state.cannibals + w.right_state.cannibals) % 256 = 3 ∧
          (w.left_state.missionaries + w.right_state.missionaries) % 256 = 3) ∧
    (∀ w c : WorldState, Except.ok c ∈ w.get_child_states →
        (c.left_state.cannibals + c.right_state.cannibals) % 256 = 3 ∧
          (c.left_state.missionaries + c.right_state.missionaries) % 256 = 3) ∧
    (∀ (l r : SideState) (b : BoatSide) (bt : String) (w : WorldState),
        WorldState.new l r b bt = Except.ok w →
        l.cannibals + r.cannibals ≤ 255 → l.missionaries + r.missionaries ≤ 255 →
        w.left_state.cannibals + w.right_state.cannibals = 3 ∧
          w.left_state.missionaries + w.right_state.missionaries = 3) := by
  refine ⟨fun l r b bt w h => ?_, fun s w h => ?_, fun w c h => ?_, fun l r b bt w h hc hm => ?_⟩
  · obtain ⟨h1, h2, rfl⟩ := (new_ok_iff _ _ _ _ _).mp h
    exact ⟨h1, h2⟩
  · exact (tryFrom_ok_elim h).2
  · obtain ⟨_, _, _, _, h1, h2, _, _⟩ := child_ok_elim h
    exact ⟨h1, h2⟩
  · obtain ⟨h1, h2, rfl⟩ := (new_ok_iff _ _ _ _ _).mp h
    unfold add8 at h1 h2
    constructor <;> [skip; skip] <;> simp only [] <;> omega

/-- C5 witness: the canonical initial state satisfies the invariant
exactly. -/
theorem c5_witness_initial_state :
    (mkW initialStateStr).left_state.cannibals + (mkW initialStateStr).right_state.cannibals = 3 ∧
      (mkW initialStateStr).left_state.missionaries +
          (mkW initialStateStr).right_state.missionaries = 3 :=
  c5_amended_total_invariant_mod256.2.2.2 ⟨0, 0⟩ ⟨3, 3⟩ BoatSide.RightSide ("root state")
    (mkW initialStateStr) (by decide) (by decide) (by decide)

/-! ### Claim C6 -/

/-- C6 (counterexample): `"200 0 59 3 right"` has true totals `(259, 3)`,
different from the fixed world totals `(3, 3)`, yet construction succeeds
because the `u8` total wraps to 3 — no `InvalidTotal` error is raised. -/
theorem c6_counterexample_wrapped_total_accepted :
    (WorldState.tryFrom ("200 0 59 3 right")).toOption.map
        (fun w => (w.left_state.cannibals + w.right_state.cannibals,
          w.left_state.missionaries + w.right_state.missionaries)) = some (259, 3) ∧
      ((259 : Nat), (3 : Nat)) ≠ ((3 : Nat), (3 : Nat)) := by decide

/-- C6 (amended): whenever the totals computed at `u8` (modulo 256) differ
from 3, `WorldState::new` rejects the configuration with one of the two
`InvalidTotal`-kind errors; in particular `"0 0 2 3 right"` fails with
`ImpossibleNumberOfCannibals(2)`. -/
theorem c6_amended_invalid_total_rejected :
    (∀ (l r : SideState) (b : BoatSide) (bt : String),
        ¬((l.cannibals + r.cannibals) % 256 = 3 ∧
            (l.missionaries + r.missionaries) % 256 = 3) →
        WorldState.new l r b bt =
            Except.error (WorldStateError.ImpossibleNumberOfCannibals
              ((l.cannibals + r.cannibals) % 256)) ∨
          WorldState.new l r b bt =
            Except.error (WorldStateError.ImpossibleNumberOfMissionaries
              ((l.missionaries + r.missionaries) % 256))) ∧
    WorldState.tryFrom ("0 0 2 3 right") =
      Except.error (WorldStateError.ImpossibleNumberOfCannibals 2) := by
  constructor
  · intro l r b bt h
    unfold WorldState.new add8
    by_cases h1 : (l.cannibals + r.cannibals) % 256 = 3
    · by_cases h2 : (l.missionaries + r.missionaries) % 256 = 3
      · exact absurd ⟨h1, h2⟩ h
      · right
        simp [h1, h2]
    · left
      simp [h1]
  · decide

/-- C6 witness: the unequal-total side pair `(0,0)/(2,3)` is rejected with
the cannibal-total error. -/
theorem c6_witness_unequal_totals :
    WorldState.new ⟨0, 0⟩ ⟨2, 3⟩ BoatSide.RightSide ("root state") =
        Except.error (WorldStateError.ImpossibleNumberOfCannibals ((0 + 2) % 256)) ∨
      WorldState.new ⟨0, 0⟩ ⟨2, 3⟩ BoatSide.RightSide ("root state") =
        Except.error (WorldStateError.ImpossibleNumberOfMissionaries ((0 + 3) % 256)) :=
  c6_amended_invalid_total_rejected.1 ⟨0, 0⟩ ⟨2, 3⟩ BoatSide.RightSide ("root state")
    (by decide)

/-! ### Claim C3 -/

/-- C3 (counterexample): the bin DFS driver pushes failure states onto its
frontier (it checks `is_game_over` only at pop time), and even `run_bfs`'s
initial seeding pushes the failure state children of the root unfiltered. -/
theorem c3_counterexample_failure_states_pushed :
    ((dfsRun 100).2.any (fun w => w.is_game_over)) = true ∧
      ((bfsRun 100).2.2.any (fun w => w.is_game_over)) = true := by decide

/-- C3 (amended): inside its main loop, `run_bfs` discards every successor
that is a failure state before scheduling, so no failure state is pushed by
the loop (the unfiltered pushes happen only at initial seeding, and in the
bin DFS/Greedy/A* drivers). -/
theorem c3_amended_bfs_loop_filters_failures (fuel : Nat) (w : WorldState)
    (h : w ∈ (bfsRun fuel).2.1) : w.is_game_over = false := by
  unfold bfsRun at h
  split at h
  · simp at h
  · split at h
    · simp at h
    · rcases bfsLoop_pushed fuel _ [] [] w h with h1 | h1
      · simp at h1
      · exact h1

/-- C3 witness: the first state the BFS loop pushes is not a failure
state. -/
theorem c3_witness_first_loop_push :
    ((bfsRun 100).2.1.getD 0 default).is_game_over = false :=
  c3_amended_bfs_loop_filters_failures 100 ((bfsRun 100).2.1.getD 0 default) (by decide)

/-! ### Claim C1 -/

/-- C1 (counterexample): on the canonical instance the BFS and A* drivers
both return 7-move solutions, not 11-move ones (the goal predicate requires
only the missionaries to have crossed, so the classic 11-move optimum for
moving everyone does not apply to this code). -/
theorem c1_counterexample_eleven_moves :
    driverMoves (bfsRun 100).1 = some 7 ∧ driverMoves (aStarRun 100).1 = some 7 ∧
      (7 : Nat) ≠ 11 := by decide

/-- C1 (amended): all four strategies return 7-move solutions on the
canonical instance, so the BFS and A* move counts are minimal among the
four strategies' outputs, and that minimum is 7. -/
theorem c1_amended_minimal_moves_seven :
    driverMoves (bfsRun 100).1 = some 7 ∧ driverMoves (aStarRun 100).1 = some 7 ∧
      driverMoves (dfsRun 100).1 = some 7 ∧ driverMoves (greedyRun 100).1 = some 7 := by
  decide

/-! ### Claim C2 -/

/-- C2 (counterexample): in the actual A* run, the fifteenth pop returns an
entry with heuristic-plus-depth 8 while an entry with heuristic-plus-depth 7
is still pending, so pops do not minimise `heuristic + path-cost`. -/
theorem c2_counterexample_pop_ignores_path_cost :
    heurPlusDepth ((aStarRun 100).2.2.getD 14 (default, [])).1 = 8 ∧
      (((aStarRun 100).2.2.getD 14 (default, [])).2.map heurPlusDepth).contains 7 = true ∧
      (7 : Nat) < 8 := by decide

/-- C2 (amended): the frontier orders entries by heuristic value alone, so a
pop from a frontier satisfying the heap layout invariant returns an entry
whose heuristic — not heuristic plus path cost — is minimal among all
pending entries. -/
theorem c2_amended_pop_min_heuristic (data : List WorldState)
    (hh : IsMinHeapByHeuristic data) (x : WorldState) (rest : List WorldState)
    (hpop : heapPop data = some (x, rest)) :
    ∀ y ∈ data, x.get_heuristic ≤ y.get_heuristic := by
  intro y hy
  obtain ⟨i, hi, hg⟩ := mem_listGet hy
  rw [heapPop_fst hpop, ← hg]
  exact heap_root_le hh i hi

/-- C2 witness: popping a concrete two-entry frontier returns the entry
with the smaller heuristic. -/
theorem c2_witness_concrete_pop :
    (mkW ("1 1 2 2 left")).get_heuristic ≤ (mkW ("1 0 2 3 left")).get_heuristic :=
  c2_amended_pop_min_heuristic [mkW ("1 1 2 2 left"), mkW ("1 0 2 3 left")]
    (by
      intro i h1 h2
      simp at h2
      have hi1 : i = 1 := by omega
      subst hi1
      decide)
    (mkW ("1 1 2 2 left"))
    (siftDownToBottom (listSet ([mkW ("1 1 2 2 left"), mkW ("1 0 2 3 left")]).dropLast 0
      (mkW ("1 0 2 3 left"))) 0)
    (by decide)
    (mkW ("1 0 2 3 left")) (by decide)

/-! ### Claim C7 -/

theorem get_child_states_eq (w : WorldState) :
    w.get_child_states = (sendCombos w).map (childFrom w) := by
  obtain ⟨ls, rs, bs, bt⟩ := w
  cases bs <;> rfl

theorem mem_combosUniverse_dup {s : SideState} {p : Nat × Nat}
    (h : p ∈ s.get_all_send_combinations_dup) : p ∈ combosUniverse := by
  unfold SideState.get_all_send_combinations_dup at h
  split_ifs at h <;> simp_all [combosUniverse] <;> tauto

theorem parseU8_le {s : String} {n : Nat} (h : parseU8 s = some n) : n ≤ 255 := by
  simp only [parseU8] at h
  repeat' split at h
  all_goals simp_all

theorem newP_ok_iff (l r : SideState) (b : BoatSide) (bt : Option WorldStateP × String)
    (w : WorldStateP) :
    WorldStateP.new l r b bt = Except.ok w ↔
      add8 l.cannibals r.cannibals = 3 ∧ add8 l.missionaries r.missionaries = 3 ∧
        w = WorldStateP.mk l r b bt.1 bt.2 := by
  unfold WorldStateP.new
  by_cases h1 : add8 l.cannibals r.cannibals = 3 <;>
    by_cases h2 : add8 l.missionaries r.missionaries = 3 <;>
      simp [h1, h2, eq_comm]

theorem u8_toString_no_pipe :
    ∀ n : Fin 256, '|' ∉ (toString n.val).data := by decide

theorem u8_toString_no_pipe_of_le {n : Nat} (h : n ≤ 255) : '|' ∉ (toString n).data :=
  u8_toString_no_pipe ⟨n, by omega⟩

theorem no_pipe_append {a b : String} :
    '|' ∉ (a ++ b).data ↔ ('|' ∉ a.data ∧ '|' ∉ b.data) := by
  rw [string_data_append]
  simp [List.mem_append, not_or]

theorem backtrack_append_vec (w : WorldState) {mov : String} (hnp : '|' ∉ mov.data)
    (ls rs : SideState) (bs : BoatSide) :
    (WorldState.mk ls rs bs (w.backtrack ++ "|" ++ mov)).get_step_by_step_vec =
      w.get_step_by_step_vec ++ [mov] := by
  unfold WorldState.get_step_by_step_vec WorldState.get_step_by_step
  rw [string_data_append, string_data_append]
  have hppd : (("|" : String)).data = ['|'] := rfl
  rw [hppd, List.append_assoc]
  simp only [List.singleton_append]
  rw [splitOnChar_append_no_sep_right _ hnp, List.map_append]
  simp [string_mk_data]

theorem stepDescriptionOf_no_pipe {p : Nat × Nat} (hp : p ∈ combosUniverse)
    (bs : BoatSide) : '|' ∉ (stepDescriptionOf bs p).data := by
  cases bs <;> simp only [stepDescriptionOf]
  · exact moveDescription_no_pipe p hp ("left") (by decide)
  · exact moveDescription_no_pipe p hp ("right") (by decide)

theorem childFrom_ok_vec {w c : WorldState} {p : Nat × Nat} (hm : p ∈ sendCombos w)
    (h : childFrom w p = Except.ok c) :
    c.get_step_by_step_vec = w.get_step_by_step_vec ++ [stepDescriptionOf w.boat_side p] := by
  have hp : p ∈ combosUniverse := by
    unfold sendCombos at hm
    cases hb : w.boat_side <;> rw [hb] at hm <;> exact mem_combosUniverse hm
  unfold childFrom at h
  cases hb : w.boat_side <;> rw [hb] at h <;>
    obtain ⟨_, _, rfl⟩ := (new_ok_iff _ _ _ _ _).mp h
  · exact backtrack_append_vec w (stepDescriptionOf_no_pipe hp BoatSide.RightSide) _ _ _
  · exact backtrack_append_vec w (stepDescriptionOf_no_pipe hp BoatSide.LeftSide) _ _ _

theorem childFromP_ok_gs {w c : WorldStateP} {p : Nat × Nat}
    (h : childFromP w p = Except.ok c) :
    c.get_step_by_step = stepDescriptionOf w.boat_side p ++ "|" ++ w.get_step_by_step := by
  unfold childFromP at h
  cases hb : w.boat_side <;> rw [hb] at h <;>
    obtain ⟨_, _, rfl⟩ := (newP_ok_iff _ _ _ _ _).mp h <;>
      simp only [stepDescriptionOf] <;> rfl

theorem rootDisplayJson_no_pipe {ls rs : SideState} (h1 : ls.cannibals ≤ 255)
    (h2 : ls.missionaries ≤ 255) (h3 : rs.cannibals ≤ 255) (h4 : rs.missionaries ≤ 255)
    (bs : BoatSide) :
    '|' ∉ (rootDisplayJson ls rs bs ("root state")).data := by
  have d1 := u8_toString_no_pipe_of_le h1
  have d2 := u8_toString_no_pipe_of_le h2
  have d3 := u8_toString_no_pipe_of_le h3
  have d4 := u8_toString_no_pipe_of_le h4
  unfold rootDisplayJson sideStateJson
  cases bs <;> simp only [boatSideVariantName, no_pipe_append] <;>
    repeat' apply And.intro
  all_goals first
    | exact d1
    | exact d2
    | exact d3
    | exact d4
    | decide

theorem tryFromP_ok_root {s : String} {w : WorldStateP}
    (h : WorldStateP.tryFrom s = Except.ok w) :
    ∃ ls rs : SideState, ∃ b : BoatSide,
      w = WorldStateP.mk ls rs b none ("root state") ∧
        ls.cannibals ≤ 255 ∧ ls.missionaries ≤ 255 ∧
          rs.cannibals ≤ 255 ∧ rs.missionaries ≤ 255 := by
  simp only [WorldStateP.tryFrom] at h
  repeat' split at h
  all_goals try exact Except.noConfusion h
  obtain ⟨_, _, rfl⟩ := (newP_ok_iff _ _ _ _ _).mp h
  refine ⟨_, _, _, rfl, ?_, ?_, ?_, ?_⟩ <;> exact parseU8_le (by assumption)

theorem map_mk_data (l : List String) :
    (l.map String.data).map (fun d => String.mk d) = l := by
  induction l with
  | nil => rfl
  | cons a t ih => simp [ih, string_mk_data]

theorem reachesViaP_split {root w : WorldStateP} {ms : List String}
    (hroot0 : '|' ∉ root.get_step_by_step.data)
    (hr : ReachesViaP root w ms) :
    splitOnChar '|' w.get_step_by_step.data =
      ((root.get_step_by_step :: ms).map String.data).reverse := by
  induction hr with
  | refl => simp [splitOnChar_no_sep hroot0]
  | @step w2 c2 ms2 p hr2 hm hcf ih =>
    have hp : p ∈ combosUniverse := by
      unfold sendCombosP at hm
      cases hb : w2.boat_side <;> rw [hb] at hm <;> exact mem_combosUniverse_dup hm
    have hnp : '|' ∉ (stepDescriptionOf w2.boat_side p).data :=
      stepDescriptionOf_no_pipe hp _
    rw [childFromP_ok_gs hcf, string_data_append, string_data_append]
    have hppd : (("|" : String)).data = ['|'] := rfl
    rw [hppd, List.append_assoc]
    simp only [List.singleton_append]
    rw [splitOnChar_append_no_sep_left _ hnp, ih]
    simp [List.reverse_append]

/-- C7: for every state reached by a chain of `get_child_states` steps from
a parsed root, in both cited implementations, `get_step_by_step_vec` is
exactly the root state's own description followed by the chain's move
descriptions in root-to-goal order — in particular its first element is the
root's description and its length is the depth plus one.  In the
accumulated-string implementation the root's description is `"root state"`;
in the parent-pointer variant it is the root's `Display` serialization
(`get_step_by_step` of a parentless state). -/
theorem c7_path_reconstruction_both :
    (∀ (s : String) (root w : WorldState) (ms : List String),
        WorldState.tryFrom s = Except.ok root → ReachesVia root w ms →
        w.get_step_by_step_vec = "root state" :: ms ∧
          w.get_step_by_step_vec.length = ms.length + 1) ∧
    (∀ (s : String) (root w : WorldStateP) (ms : List String),
        WorldStateP.tryFrom s = Except.ok root → ReachesViaP root w ms →
        w.get_step_by_step_vec = root.get_step_by_step :: ms ∧
          w.get_step_by_step_vec.length = ms.length + 1) := by
  constructor
  · intro s root w ms hroot hr
    have hvec : w.get_step_by_step_vec = "root state" :: ms := by
      induction hr with
      | refl =>
        have hbt := (tryFrom_ok_elim hroot).1
        unfold WorldState.get_step_by_step_vec WorldState.get_step_by_step
        rw [hbt]
        decide
      | @step w2 c2 ms2 p hr2 hm hcf ih =>
        rw [childFrom_ok_vec hm hcf, ih]
        rfl
    exact ⟨hvec, by rw [hvec]; simp⟩
  · intro s root w ms hroot hr
    obtain ⟨ls, rs, b, rfl, hb1, hb2, hb3, hb4⟩ := tryFromP_ok_root hroot
    have hroot0 :
        '|' ∉ (WorldStateP.mk ls rs b none ("root state")).get_step_by_step.data := by
      simp only [WorldStateP.get_step_by_step]
      exact rootDisplayJson_no_pipe hb1 hb2 hb3 hb4 b
    have hsplit := reachesViaP_split hroot0 hr
    have hvec : w.get_step_by_step_vec =
        (WorldStateP.mk ls rs b none ("root state")).get_step_by_step :: ms := by
      unfold WorldStateP.get_step_by_step_vec
      rw [hsplit, List.reverse_reverse, map_mk_data]
    exact ⟨hvec, by rw [hvec]; simp⟩

/-- C7 witness: in both implementations, the one-step chain to the
two-cannibal child reconstructs the root's own description followed by that
move's description. -/
theorem c7_witness_both_variants :
    (childCann2.get_step_by_step_vec =
        "root state" :: ["send 2 cannibals and 0 missionaries to the left side"] ∧
      childCann2.get_step_by_step_vec.length =
        (["send 2 cannibals and 0 missionaries to the left side"] : List String).length + 1) ∧
    (childP1.get_step_by_step_vec =
        rootP.get_step_by_step :: ["send 2 cannibals and 0 missionaries to the left side"] ∧
      childP1.get_step_by_step_vec.length =
        (["send 2 cannibals and 0 missionaries to the left side"] : List String).length + 1) :=
  ⟨c7_path_reconstruction_both.1 initialStateStr (mkW initialStateStr) childCann2
      (["send 2 cannibals and 0 missionaries to the left side"])
      (by decide)
      (@ReachesVia.step (mkW initialStateStr) (mkW initialStateStr) childCann2 [] (2, 0)
        ReachesVia.refl (by decide) (by decide)),
    c7_path_reconstruction_both.2 initialStateStr rootP childP1
      (["send 2 cannibals and 0 missionaries to the left side"])
      (by rfl)
      (@ReachesViaP.step rootP rootP childP1 [] (2, 0)
        ReachesViaP.refl (by decide) (by rfl))⟩

/-! ### Claim C8 -/

/-- C8 (counterexample): `"0 0 3 003 right"` is a well-formed five-token
string (it parses), but parse-then-encode yields `"0 0 3 3 right"`, a
different token sequence — the numeral, not just whitespace, was
normalized. -/
theorem c8_counterexample_leading_zeros :
    (WorldState.tryFrom ("0 0 3 003 right")).toOption.map WorldState.encode =
        some ("0 0 3 3 right") ∧
      ("0 0 3 3 right" : String) ≠ "0 0 3 003 right" := by decide

theorem u8_repr_facts_of_le {n : Nat} (h : n ≤ 255) :
    parseU8 (toString n) = some n ∧ trimStr (toString n) = toString n ∧
      ' ' ∉ (toString n).data :=
  u8_repr_facts ⟨n, by omega⟩

/-- C8 (amended): parse-then-encode reproduces the input exactly for every
five-token string whose four count tokens are canonical decimal numerals of
`u8` values and whose side token is `"left"` or `"right"`, joined by single
spaces. -/
theorem c8_amended_roundtrip_canonical (n1 n2 n3 n4 : Nat) (side : String) (w : WorldState)
    (h1 : n1 ≤ 255) (h2 : n2 ≤ 255) (h3 : n3 ≤ 255) (h4 : n4 ≤ 255)
    (hside : side = "left" ∨ side = "right")
    (hok : WorldState.tryFrom (fiveTokens n1 n2 n3 n4 side) = Except.ok w) :
    w.encode = fiveTokens n1 n2 n3 n4 side := by
  obtain ⟨hp1, ht1, hs1⟩ := u8_repr_facts_of_le h1
  obtain ⟨hp2, ht2, hs2⟩ := u8_repr_facts_of_le h2
  obtain ⟨hp3, ht3, hs3⟩ := u8_repr_facts_of_le h3
  obtain ⟨hp4, ht4, hs4⟩ := u8_repr_facts_of_le h4
  have hspd : ((" " : String)).data = [' '] := rfl
  have hdata : (fiveTokens n1 n2 n3 n4 side).data =
      (toString n1).data ++ ' ' :: ((toString n2).data ++ ' ' ::
        ((toString n3).data ++ ' ' :: ((toString n4).data ++ ' ' :: side.data))) := by
    unfold fiveTokens
    simp [string_data_append, hspd, List.append_assoc]
  have hsidens : ' ' ∉ side.data := by
    rcases hside with hs | hs <;> subst hs <;> decide
  have hsplit : splitOnChar ' ' (fiveTokens n1 n2 n3 n4 side).data =
      [(toString n1).data, (toString n2).data, (toString n3).data, (toString n4).data,
        side.data] := by
    rw [hdata, splitOnChar_append_no_sep_left _ hs1, splitOnChar_append_no_sep_left _ hs2,
      splitOnChar_append_no_sep_left _ hs3, splitOnChar_append_no_sep_left _ hs4,
      splitOnChar_no_sep hsidens]
  unfold WorldState.tryFrom at hok
  rw [hsplit] at hok
  simp only [List.map_cons, List.map_nil, string_mk_data] at hok
  rw [if_neg (by simp)] at hok
  simp only [ht1, hp1, ht2, hp2, ht3, hp3, ht4, hp4] at hok
  rcases hside with hs | hs <;> subst hs
  · rw [show BoatSide.tryFrom (trimStr ("left")) = Except.ok BoatSide.LeftSide from by decide]
      at hok
    obtain ⟨_, _, rfl⟩ := (new_ok_iff _ _ _ _ _).mp hok
    rfl
  · rw [show BoatSide.tryFrom (trimStr ("right")) = Except.ok BoatSide.RightSide from by decide]
      at hok
    obtain ⟨_, _, rfl⟩ := (new_ok_iff _ _ _ _ _).mp hok
    rfl

/-- C8 witness: the canonical initial-state string round-trips exactly. -/
theorem c8_witness_roundtrip :
    (mkW initialStateStr).encode = fiveTokens 0 0 3 3 ("right") :=
  c8_amended_roundtrip_canonical 0 0 3 3 ("right") (mkW initialStateStr)
    (by decide) (by decide) (by decide) (by decide) (Or.inr rfl) (by decide)

/-! ### Supporting facts about the A* heap embedding -/

theorem isMinHeapB_sound {data : List WorldState} (h : isMinHeapB data = true) :
    IsMinHeapByHeuristic data := by
  intro i hpos hlen
  have h2 := List.all_eq_true.mp h i (List.mem_range.mpr hlen)
  simp only [Bool.or_eq_true, decide_eq_true_eq] at h2
  rcases h2 with h2 | h2
  · omega
  · exact h2

/-- Every frontier pending at a pop in the embedded `bin/a_star` run
satisfies the binary-heap layout invariant, so the hypothesis of the
minimal-heuristic pop theorem holds throughout the actual driver run. -/
theorem astar_run_frontiers_satisfy_invariant :
    (((aStarRun 100).2.2.map (fun p => isMinHeapB p.2)).all (fun b => b)) = true := by decide

/-- The heap embedding reproduces the pop order pinned by the repository's
own unit test `test_world_state_heap_wrapper_maintains_expected_order`,
including the order among equal-heuristic ties. -/
theorem heap_reproduces_reference_unit_test :
    popAllEncodes 10 referenceTestHeap =
      ["2 3 1 0 right", "0 3 3 0 right", "0 3 3 0 right", "2 2 1 1 right",
        "1 1 2 2 right", "0 0 3 3 right"] := by decide
